import Mathlib

/-!
Shallow embedding of the content-management front-end (React client).
The pure logic of the pages is translated into Lean definitions:

* `Permission`, `Document`, `ActivityLog` — the record shapes the backend
  sends, with only the fields the client logic reads.
* `handleResponseError` / `applyRequestInterceptor` — the axios
  interceptors of the API client module.
* `filterDocuments` / `filterLogs` — the client-side filter functions of
  the My Documents and Activity Logs pages.
* `buildPermMap`, `isExpired`, `showDownloadButton` — the Shared with Me
  page's permission map and Download-button logic.
* `formatDuration_dashboard` / `formatDuration_logs` — the two duration
  formatters.
* `loadAllDocumentsMerge` — the Access Requests page's merge of owned and
  shared document lists.

JS strings are `String`, timestamps (`Date` values) are `Int` millisecond
counts, absent (undefined/null) values are `Option`, JS objects used as
maps are functions `String → Option _`.
-/

/-- A permission / access-request record as the client reads it:
`document_id`, `permission_type` ('view'/'download'/'edit'), `status`
('pending'/'approved'/'denied'/'expired'), optional `expires_at` timestamp. -/
structure Permission where
  document_id : String
  permission_type : String
  status : String
  expires_at : Option Int
deriving DecidableEq

/-- A document record as the client reads it. `description` is optional. -/
structure Document where
  id : String
  filename : String
  description : Option String
  category : String
deriving DecidableEq

/-- An activity-log record as the client reads it. -/
structure ActivityLog where
  document_name : String
  user_name : String
  action : String
deriving DecidableEq

/-- The client-side state touched by the API interceptors: the token in
localStorage and the window location. -/
structure ClientState where
  token : Option String
  location : String
deriving DecidableEq

/-- A failed axios response: `error.response?.status` (none when the
request never got a response). -/
structure HttpError where
  status : Option Nat
deriving DecidableEq

/-- An outgoing axios request config: its url and the optional
Authorization header. -/
structure RequestConfig where
  url : String
  authorization : Option String
deriving DecidableEq

/-- The response-error interceptor of the API client:
on 401 it removes the stored token and sets `window.location.href` to '/',
otherwise it leaves the state alone; either way it returns
`Promise.reject(error)` (the error, rejected once). -/
def handleResponseError (st : ClientState) (error : HttpError) :
    ClientState × Except HttpError Unit :=
  if error.status = some 401 then
    ({ token := none, location := "/" }, Except.error error)
  else
    (st, Except.error error)

/-- The request interceptor of the API client: when a token is stored it
sets the Authorization header to `Bearer <token>`, otherwise it returns
the config unchanged. -/
def applyRequestInterceptor (storedToken : Option String)
    (config : RequestConfig) : RequestConfig :=
  match storedToken with
  | some token => { config with authorization := some ("Bearer " ++ token) }
  | none => config

/-- Dashboard `loadDashboardData`: the Pending Requests statistic,
`incomingReqRes.data.filter((r) => r.status === 'pending').length`. -/
def dashboardPendingRequests (incoming : List Permission) : Nat :=
  (incoming.filter (fun r => r.status == "pending")).length

/-- Access Requests page, Incoming tab header count:
`incomingRequests.filter((r) => r.status === 'pending').length`. -/
def incomingTabPendingCount (incomingRequests : List Permission) : Nat :=
  (incomingRequests.filter (fun r => r.status == "pending")).length

/-- C2: on a 401 failure the response interceptor clears the stored token
and redirects to '/'; on any other failure the state is untouched; in both
cases the error is rejected back to the caller exactly once (the result is
`Except.error` of the original error, with no retry). -/
theorem response_interceptor_spec (st : ClientState) (e : HttpError) :
    (e.status = some 401 →
      (handleResponseError st e).1 = { token := none, location := "/" }) ∧
    (e.status ≠ some 401 → (handleResponseError st e).1 = st) ∧
    (handleResponseError st e).2 = Except.error e := by
  unfold handleResponseError
  by_cases h : e.status = some 401 <;> simp [h]

/-- C4: the request interceptor sets the Authorization header to
`Bearer <token>` exactly when a token is stored; with no stored token the
config is returned unchanged (in particular a config without an
Authorization header still has none), and the url is never modified. -/
theorem request_interceptor_spec (tok : Option String) (cfg : RequestConfig) :
    (∀ t, tok = some t →
      applyRequestInterceptor tok cfg =
        { cfg with authorization := some ("Bearer " ++ t) }) ∧
    (tok = none → applyRequestInterceptor tok cfg = cfg) ∧
    (tok = none → cfg.authorization = none →
      (applyRequestInterceptor tok cfg).authorization = none) ∧
    (applyRequestInterceptor tok cfg).url = cfg.url := by
  cases tok <;> simp [applyRequestInterceptor]

/-- C8: both the Dashboard Pending Requests statistic and the Incoming tab
count equal the number of incoming permission records whose status is
'pending'. -/
theorem pending_counts_spec (incoming : List Permission) :
    dashboardPendingRequests incoming =
      incoming.countP (fun r => r.status == "pending") ∧
    incomingTabPendingCount incoming =
      incoming.countP (fun r => r.status == "pending") ∧
    dashboardPendingRequests incoming = incomingTabPendingCount incoming := by
  unfold dashboardPendingRequests incomingTabPendingCount
  simp [List.countP_eq_length_filter]

/-- JS `String.prototype.includes`: `q` occurs as a contiguous substring
of `s` (on the character sequence). -/
def strIncludes (s q : String) : Bool := decide (q.toList <:+: s.toList)

/-- MyDocuments.jsx search predicate: the query matches the filename, or
matches the description when one is present (`doc.description?.` is falsy
when the description is absent). -/
def docMatchesQuery (doc : Document) (searchQuery : String) : Bool :=
  strIncludes doc.filename.toLower searchQuery.toLower ||
    (match doc.description with
     | some d => strIncludes d.toLower searchQuery.toLower
     | none => false)

/-- MyDocuments.jsx `filterDocuments`: filter by the search query when it
is non-empty (JS truthiness of a string), then by category when the
filter is not 'all'. -/
def filterDocuments (documents : List Document)
    (searchQuery categoryFilter : String) : List Document :=
  let filtered := documents
  let filtered :=
    if searchQuery ≠ "" then
      filtered.filter (fun doc => docMatchesQuery doc searchQuery)
    else filtered
  let filtered :=
    if categoryFilter ≠ "all" then
      filtered.filter (fun doc => doc.category == categoryFilter)
    else filtered
  filtered

/-- ActivityLogs search predicate: the query matches the document name or
the user name (both always present). -/
def logMatchesQuery (log : ActivityLog) (searchQuery : String) : Bool :=
  strIncludes log.document_name.toLower searchQuery.toLower ||
    strIncludes log.user_name.toLower searchQuery.toLower

/-- ActivityLogs `filterLogs`: filter by the search query when it is
non-empty, then by action when the filter is not 'all'. -/
def filterLogs (logs : List ActivityLog)
    (searchQuery actionFilter : String) : List ActivityLog :=
  let filtered := logs
  let filtered :=
    if searchQuery ≠ "" then
      filtered.filter (fun log => logMatchesQuery log searchQuery)
    else filtered
  let filtered :=
    if actionFilter ≠ "all" then
      filtered.filter (fun log => log.action == actionFilter)
    else filtered
  filtered

/-- C3: `filterDocuments` keeps exactly the documents matching the query
(when non-empty) and the category (when the filter is not 'all'),
preserving order; a document with no description can match only through
its filename; the empty query with the 'all' filter returns the input. -/
theorem filterDocuments_spec (documents : List Document) (q cat : String) :
    filterDocuments documents q cat =
      documents.filter (fun doc =>
        (q == "" || docMatchesQuery doc q) &&
        (cat == "all" || doc.category == cat)) ∧
    filterDocuments documents "" "all" = documents ∧
    (∀ doc : Document, doc.description = none →
      docMatchesQuery doc q = strIncludes doc.filename.toLower q.toLower) := by
  refine ⟨?_, ?_, ?_⟩
  · unfold filterDocuments
    by_cases hq : q = "" <;> by_cases hc : cat = "all"
    · simp [hq, hc]
    · have hc2 : (cat == "all") = false := by simp [hc]
      simp [hq, hc, hc2]
    · have hq2 : (q == "") = false := by simp [hq]
      simp [hq, hc, hq2]
    · have hq2 : (q == "") = false := by simp [hq]
      have hc2 : (cat == "all") = false := by simp [hc]
      simp [hq, hc, hq2, hc2, List.filter_filter]
      exact List.filter_congr fun a _ => Bool.and_comm _ _
  · simp [filterDocuments]
  · intro doc hd
    simp [docMatchesQuery, hd]

/-- C7: `filterLogs` keeps exactly the records matching the query (when
non-empty) on document name or user name and the action (when the filter
is not 'all'); the empty query with the 'all' filter returns the input. -/
theorem filterLogs_spec (logs : List ActivityLog) (q af : String) :
    filterLogs logs q af =
      logs.filter (fun log =>
        (q == "" || logMatchesQuery log q) &&
        (af == "all" || log.action == af)) ∧
    filterLogs logs "" "all" = logs := by
  refine ⟨?_, ?_⟩
  · unfold filterLogs
    by_cases hq : q = "" <;> by_cases ha : af = "all"
    · simp [hq, ha]
    · have ha2 : (af == "all") = false := by simp [ha]
      simp [hq, ha, ha2]
    · have hq2 : (q == "") = false := by simp [hq]
      simp [hq, ha, hq2]
    · have hq2 : (q == "") = false := by simp [hq]
      have ha2 : (af == "all") = false := by simp [ha]
      simp [hq, ha, hq2, ha2, List.filter_filter]
      exact List.filter_congr fun a _ => Bool.and_comm _ _
  · simp [filterLogs]

/-- Dashboard `formatDuration`: always called with a number (the weekly
total, or a duration already known to be truthy). -/
def formatDuration_dashboard (seconds : Nat) : String :=
  let hours := seconds / 3600
  let minutes := seconds % 3600 / 60
  if hours > 0 then toString hours ++ "h " ++ toString minutes ++ "m"
  else if minutes > 0 then toString minutes ++ "m"
  else toString seconds ++ "s"

/-- ActivityLogs `formatDuration`: `if (!seconds) return null` first, so a
missing or zero duration yields null (rendered as '-'); otherwise the same
hours/minutes/seconds formatting as the Dashboard version. -/
def formatDuration_logs (seconds : Option Nat) : Option String :=
  match seconds with
  | none => none
  | some s =>
    if s = 0 then none
    else
      let hours := s / 3600
      let minutes := s % 3600 / 60
      if hours > 0 then some (toString hours ++ "h " ++ toString minutes ++ "m")
      else if minutes > 0 then some (toString minutes ++ "m")
      else some (toString s ++ "s")

/-- C6: for positive `s`, both formatters produce `<h>h <m>m` when
`h = s / 3600` is positive, otherwise `<m>m` when `m = s % 3600 / 60` is
positive, otherwise `<s>s`; the ActivityLogs version returns none on a
zero or absent argument. -/
theorem formatDuration_formula (s : Nat) (hs : 0 < s) :
    (formatDuration_dashboard s =
      if 0 < s / 3600 then
        toString (s / 3600) ++ "h " ++ toString (s % 3600 / 60) ++ "m"
      else if 0 < s % 3600 / 60 then toString (s % 3600 / 60) ++ "m"
      else toString s ++ "s") ∧
    (formatDuration_logs (some s) =
      some (if 0 < s / 3600 then
        toString (s / 3600) ++ "h " ++ toString (s % 3600 / 60) ++ "m"
      else if 0 < s % 3600 / 60 then toString (s % 3600 / 60) ++ "m"
      else toString s ++ "s")) ∧
    formatDuration_logs (some 0) = none ∧
    formatDuration_logs none = none := by
  refine ⟨rfl, ?_, rfl, rfl⟩
  have hz : ¬s = 0 := Nat.pos_iff_ne_zero.mp hs
  simp only [formatDuration_logs, if_neg hz]
  split_ifs <;> rfl

/-- C6 witness: the formula evaluated at 5000 seconds. -/
theorem formatDuration_formula_witness :
    (formatDuration_dashboard 5000 =
      if 0 < 5000 / 3600 then
        toString (5000 / 3600) ++ "h " ++ toString (5000 % 3600 / 60) ++ "m"
      else if 0 < 5000 % 3600 / 60 then toString (5000 % 3600 / 60) ++ "m"
      else toString 5000 ++ "s") ∧
    (formatDuration_logs (some 5000) =
      some (if 0 < 5000 / 3600 then
        toString (5000 / 3600) ++ "h " ++ toString (5000 % 3600 / 60) ++ "m"
      else if 0 < 5000 % 3600 / 60 then toString (5000 % 3600 / 60) ++ "m"
      else toString 5000 ++ "s")) ∧
    formatDuration_logs (some 0) = none ∧
    formatDuration_logs none = none :=
  formatDuration_formula 5000 (by decide)

/-- C10: on every duration of at least one second the two formatters
agree (the ActivityLogs one wraps the Dashboard one's string in `some`);
they differ only at zero or absent input, where the ActivityLogs version
is none and the Dashboard version is '0s'. -/
theorem formatDuration_refinement (s : Nat) (hs : 1 ≤ s) :
    formatDuration_logs (some s) = some (formatDuration_dashboard s) ∧
    formatDuration_logs (some 0) = none ∧
    formatDuration_logs none = none ∧
    formatDuration_dashboard 0 = "0s" := by
  refine ⟨?_, rfl, rfl, rfl⟩
  have hz : ¬s = 0 := Nat.one_le_iff_ne_zero.mp hs
  simp only [formatDuration_logs, formatDuration_dashboard, if_neg hz]
  split_ifs <;> rfl

/-- C10 witness: agreement at 59 seconds. -/
theorem formatDuration_refinement_witness :
    formatDuration_logs (some 59) = some (formatDuration_dashboard 59) ∧
    formatDuration_logs (some 0) = none ∧
    formatDuration_logs none = none ∧
    formatDuration_dashboard 0 = "0s" :=
  formatDuration_refinement 59 (by decide)

/-- SharedDocuments.jsx `isExpired`:
`perm?.expires_at && new Date(perm.expires_at) < new Date()`; `now` is the
clock reading the second `new Date()` takes. Falsy when `expires_at` is
absent. -/
def isExpired (perm : Permission) (now : Int) : Bool :=
  match perm.expires_at with
  | some t => decide (t < now)
  | none => false

/-- One JS object assignment `permMap[p.document_id] = p`, on the object
modelled as a map. -/
def assignPerm (m : String → Option Permission) (p : Permission) :
    String → Option Permission :=
  fun k => if k = p.document_id then some p else m k

/-- SharedDocuments.jsx `loadSharedDocuments` permission map: keep the
records with status 'approved', then assign each into the object keyed by
`document_id` (in list order, so later records overwrite earlier ones). -/
def buildPermMap (perms : List Permission) : String → Option Permission :=
  (perms.filter (fun p => p.status == "approved")).foldl assignPerm
    (fun _ => none)

/-- SharedDocuments.jsx render condition of the Download button for the
document `docId`:
`perm && (perm.permission_type === 'download' || perm.permission_type === 'edit') && !isExpired`. -/
def showDownloadButton (perms : List Permission) (docId : String)
    (now : Int) : Bool :=
  match buildPermMap perms docId with
  | some perm =>
    (perm.permission_type == "download" || perm.permission_type == "edit")
      && !(isExpired perm now)
  | none => false

/-- The latest record with status 'approved' and the given `document_id`
in the outgoing permissions list (none when there is none): the record
the claim says the permission map holds for that document. -/
def lastApprovedPerm (perms : List Permission) (docId : String) :
    Option Permission :=
  perms.foldl
    (fun acc p =>
      if p.status == "approved" && p.document_id == docId then some p
      else acc)
    none

/-- Folding the approved records into the object, read at one key, is the
fold that keeps the latest approved record for that key. -/
theorem buildPermMap_eq_foldl (docId : String) (l : List Permission) :
    ∀ (m : String → Option Permission) (acc : Option Permission),
      m docId = acc →
      ((l.filter (fun p => p.status == "approved")).foldl assignPerm m) docId
        = l.foldl
            (fun acc p =>
              if p.status == "approved" && p.document_id == docId then some p
              else acc)
            acc := by
  induction l with
  | nil => intro m acc h; simpa using h
  | cons p l ih =>
    intro m acc h
    by_cases hs : p.status = "approved"
    · have hs2 : (p.status == "approved") = true := by simp [hs]
      rw [List.filter_cons, if_pos hs2, List.foldl_cons, List.foldl_cons]
      apply ih
      by_cases hd : p.document_id = docId
      · have hd2 : docId = p.document_id := hd.symm
        simp [assignPerm, hs2, hd2]
      · have hd2 : ¬docId = p.document_id := fun hh => hd hh.symm
        simp [assignPerm, hs2, hd, hd2, h]
    · have hs2 : (p.status == "approved") = false := by simp [hs]
      rw [List.filter_cons, if_neg (by simp [hs2]), List.foldl_cons]
      apply ih
      simp [hs2, h]

/-- The permission map read at a document id is the latest approved
record for that id. -/
theorem buildPermMap_eq_lastApproved (perms : List Permission)
    (docId : String) :
    buildPermMap perms docId = lastApprovedPerm perms docId :=
  buildPermMap_eq_foldl docId perms (fun _ => none) none rfl

/-- C1: the Download button on the Shared with Me page is rendered for a
document exactly when the permission map — which holds, per document id,
the latest status-'approved' record of the outgoing permissions list —
has a record for it whose type is 'download' or 'edit' and which is not
expired; a record is expired exactly when it has an `expires_at` earlier
than the current time. -/
theorem download_button_spec (perms : List Permission) (docId : String)
    (now : Int) :
    buildPermMap perms docId = lastApprovedPerm perms docId ∧
    (showDownloadButton perms docId now = true ↔
      ∃ p, lastApprovedPerm perms docId = some p ∧
        (p.permission_type = "download" ∨ p.permission_type = "edit") ∧
        isExpired p now = false) ∧
    (∀ p : Permission,
      isExpired p now = true ↔ ∃ t, p.expires_at = some t ∧ t < now) := by
  refine ⟨buildPermMap_eq_lastApproved perms docId, ?_, ?_⟩
  · unfold showDownloadButton
    rw [buildPermMap_eq_lastApproved]
    cases hl : lastApprovedPerm perms docId with
    | none => simp
    | some p => simp [Bool.and_eq_true, Bool.or_eq_true, beq_iff_eq,
        Bool.not_eq_true']
  · intro p
    unfold isExpired
    cases hp : p.expires_at <;> simp

/-- AccessRequests `getStatusBadge`: the badge label and color classes
for a request status, none (JSX null) for an unknown status. -/
def getStatusBadge (status : String) : Option (String × String) :=
  match status with
  | "pending" => some ("Pending", "bg-amber-50 text-amber-700 border-amber-200")
  | "approved" => some ("Approved", "bg-emerald-50 text-emerald-700 border-emerald-200")
  | "denied" => some ("Denied", "bg-rose-50 text-rose-700 border-rose-200")
  | "expired" => some ("Expired", "bg-gray-50 text-gray-700 border-gray-200")
  | _ => none

/-- C5 counterexample: the SharedDocuments `isExpired` helper, on one and
the same record, yields different results at two clock readings, so the
cited helpers are not all independent of the system clock. -/
theorem isExpired_clock_counterexample :
    isExpired ⟨"d1", "view", "approved", some 5⟩ 0 = false ∧
    isExpired ⟨"d1", "view", "approved", some 5⟩ 10 = true := by
  exact ⟨rfl, rfl⟩

/-- C5 (amended): the search predicate reads only the filename and
description, the badge logic only the status string, and `isExpired` is
deterministic in the record and the clock reading — clock-independent on
records without `expires_at`, and depending on the clock exactly through
the comparison of `expires_at` with the current time. -/
theorem pure_helpers_amended (p p2 : Permission) (doc doc2 : Document)
    (q : String) (now now2 : Int) :
    (doc.filename = doc2.filename → doc.description = doc2.description →
      docMatchesQuery doc q = docMatchesQuery doc2 q) ∧
    (p.expires_at = none → isExpired p now = isExpired p now2) ∧
    (p.expires_at = p2.expires_at → isExpired p now = isExpired p2 now) ∧
    (isExpired p now = true ↔ ∃ t, p.expires_at = some t ∧ t < now) ∧
    (∀ st : String, (getStatusBadge st).isSome =
      (st == "pending" || st == "approved" || st == "denied" ||
        st == "expired")) := by
  refine ⟨?_, ?_, ?_, ?_, ?_⟩
  · intro h1 h2
    unfold docMatchesQuery
    rw [h1, h2]
  · intro h; simp [isExpired, h]
  · intro h; unfold isExpired; rw [h]
  · unfold isExpired
    cases hp : p.expires_at <;> simp
  · intro st
    unfold getStatusBadge
    split <;> simp_all

/-- AccessRequests `loadAllDocuments` unique filter:
`allDocs.filter((doc, index, self) => index === self.findIndex((d) => d.id === doc.id))`,
as a recursion carrying the current index. -/
def uniqueDocsAux (self : List Document) : Nat → List Document → List Document
  | _, [] => []
  | i, doc :: ds =>
    if i = self.findIdx (fun d => d.id == doc.id) then
      doc :: uniqueDocsAux self (i + 1) ds
    else uniqueDocsAux self (i + 1) ds

/-- AccessRequests `loadAllDocuments`: concatenate owned and shared
documents and keep a document exactly at the first index where its id
occurs. -/
def loadAllDocumentsMerge (myDocs sharedDocs : List Document) :
    List Document :=
  let allDocs := myDocs ++ sharedDocs
  uniqueDocsAux allDocs 0 allDocs

/-- First-occurrence dedup by id with an explicit set of already-seen
ids: a document is dropped exactly when its id occurred before. -/
def firstOccurrencesById : List String → List Document → List Document
  | _, [] => []
  | seen, doc :: ds =>
    if doc.id ∈ seen then firstOccurrencesById seen ds
    else doc :: firstOccurrencesById (doc.id :: seen) ds

/-- `findIdx` skips a prefix without matches. -/
theorem findIdx_append_of_none (p : Document → Bool) :
    ∀ (pre l : List Document), (∀ e ∈ pre, p e = false) →
      (pre ++ l).findIdx p = pre.length + l.findIdx p := by
  intro pre
  induction pre with
  | nil => intro l h; simp
  | cons a pre ih =>
    intro l h
    have ha : p a = false := h a (by simp)
    rw [List.cons_append, List.findIdx_cons, ha, cond_false,
      ih l (fun e he => h e (List.mem_cons_of_mem a he))]
    simp only [List.length_cons]
    omega

/-- `findIdx` lands inside a prefix that holds a match. -/
theorem findIdx_append_lt (p : Document → Bool) :
    ∀ (pre l : List Document), (∃ e ∈ pre, p e = true) →
      (pre ++ l).findIdx p < pre.length := by
  intro pre
  induction pre with
  | nil =>
    rintro l ⟨e, he, _⟩
    exact absurd he (List.not_mem_nil e)
  | cons a pre ih =>
    rintro l ⟨e, he, hpe⟩
    rw [List.cons_append, List.findIdx_cons]
    by_cases hpa : p a = true
    · simp [hpa]
    · have ha : p a = false := Bool.eq_false_iff.mpr hpa
      rw [ha, cond_false]
      have he2 : e ∈ pre := by
        rcases List.mem_cons.mp he with h1 | h1
        · exact absurd (h1 ▸ hpe) hpa
        · exact h1
      have hlt := ih l ⟨e, he2, hpe⟩
      simp only [List.length_cons]
      omega

/-- The JS indexed filter over the concatenation equals first-occurrence
dedup, for any already-processed prefix whose ids are the seen set. -/
theorem uniqueDocsAux_eq_firstOcc :
    ∀ (suffix pre : List Document) (seen : List String)
      (self : List Document),
      self = pre ++ suffix →
      (∀ x : String, x ∈ seen ↔ ∃ e ∈ pre, e.id = x) →
      uniqueDocsAux self pre.length suffix =
        firstOccurrencesById seen suffix := by
  intro suffix
  induction suffix with
  | nil => intro pre seen self hself hseen; rfl
  | cons doc ds ih =>
    intro pre seen self hself hseen
    by_cases hmem : doc.id ∈ seen
    · have hx : ∃ e ∈ pre, (fun d => d.id == doc.id) e = true := by
        rcases (hseen doc.id).mp hmem with ⟨e, he, heq⟩
        exact ⟨e, he, by simp [heq]⟩
      have hlt : self.findIdx (fun d => d.id == doc.id) < pre.length := by
        rw [hself]
        exact findIdx_append_lt _ pre (doc :: ds) hx
      have hseen2 : ∀ x : String, x ∈ seen ↔ ∃ e ∈ pre ++ [doc], e.id = x := by
        intro x
        constructor
        · intro hx2
          rcases (hseen x).mp hx2 with ⟨e, he, heq⟩
          exact ⟨e, by simp [he], heq⟩
        · rintro ⟨e, he, heq⟩
          rcases List.mem_append.mp he with h1 | h1
          · exact (hseen x).mpr ⟨e, h1, heq⟩
          · have hed : e = doc := by simpa using h1
            subst hed
            exact heq ▸ hmem
      have hrec := ih (pre ++ [doc]) seen self (by simp [hself]) hseen2
      simp only [List.length_append, List.length_cons, List.length_nil] at hrec
      simp only [uniqueDocsAux]
      rw [if_neg (by omega), firstOccurrencesById, if_pos hmem]
      exact hrec
    · have hall : ∀ e ∈ pre, (fun d => d.id == doc.id) e = false := by
        intro e he
        simp only [beq_eq_false_iff_ne]
        intro heq
        exact hmem ((hseen doc.id).mpr ⟨e, he, heq⟩)
      have hidx : self.findIdx (fun d => d.id == doc.id) = pre.length := by
        rw [hself, findIdx_append_of_none _ pre (doc :: ds) hall,
          List.findIdx_cons]
        simp
      have hseen2 : ∀ x : String,
          x ∈ doc.id :: seen ↔ ∃ e ∈ pre ++ [doc], e.id = x := by
        intro x
        constructor
        · intro hx2
          rcases List.mem_cons.mp hx2 with h1 | h1
          · exact ⟨doc, by simp, h1.symm⟩
          · rcases (hseen x).mp h1 with ⟨e, he, heq⟩
            exact ⟨e, by simp [he], heq⟩
        · rintro ⟨e, he, heq⟩
          rcases List.mem_append.mp he with h1 | h1
          · exact List.mem_cons_of_mem _ ((hseen x).mpr ⟨e, h1, heq⟩)
          · have hed : e = doc := by simpa using h1
            subst hed
            exact heq ▸ List.mem_cons_self _ _
      have hrec := ih (pre ++ [doc]) (doc.id :: seen) self (by simp [hself])
        hseen2
      simp only [List.length_append, List.length_cons, List.length_nil] at hrec
      simp only [uniqueDocsAux]
      rw [if_pos hidx.symm, firstOccurrencesById, if_neg hmem]
      exact congrArg (doc :: ·) hrec

/-- First-occurrence dedup produces pairwise distinct ids, none of them
seen before. -/
theorem firstOcc_nodup :
    ∀ (l : List Document) (seen : List String),
      ((firstOccurrencesById seen l).map (fun d => d.id)).Nodup ∧
      ∀ x ∈ (firstOccurrencesById seen l).map (fun d => d.id), x ∉ seen := by
  intro l
  induction l with
  | nil =>
    intro seen
    exact ⟨by simp [firstOccurrencesById], by simp [firstOccurrencesById]⟩
  | cons doc ds ih =>
    intro seen
    by_cases hmem : doc.id ∈ seen
    · rw [firstOccurrencesById, if_pos hmem]
      exact ih seen
    · rw [firstOccurrencesById, if_neg hmem]
      obtain ⟨hnd, hnin⟩ := ih (doc.id :: seen)
      constructor
      · simp only [List.map_cons, List.nodup_cons]
        exact ⟨fun hin => (hnin doc.id hin) (by simp), hnd⟩
      · intro x hx
        simp only [List.map_cons, List.mem_cons] at hx
        rcases hx with h1 | h1
        · subst h1; exact hmem
        · intro hxs
          exact (hnin x h1) (by simp [hxs])

/-- C9: the Access Requests page's merged document list keeps, for each
document id, only the first occurrence in the concatenation of owned and
shared documents, so every id occurs at most once in it. -/
theorem loadAllDocuments_unique (myDocs sharedDocs : List Document) :
    loadAllDocumentsMerge myDocs sharedDocs =
      firstOccurrencesById [] (myDocs ++ sharedDocs) ∧
    ((loadAllDocumentsMerge myDocs sharedDocs).map (fun d => d.id)).Nodup := by
  have heq : loadAllDocumentsMerge myDocs sharedDocs =
      firstOccurrencesById [] (myDocs ++ sharedDocs) := by
    unfold loadAllDocumentsMerge
    have h := uniqueDocsAux_eq_firstOcc (myDocs ++ sharedDocs) []
      [] (myDocs ++ sharedDocs) (by simp) (by simp)
    simpa using h
  refine ⟨heq, ?_⟩
  rw [heq]
  exact (firstOcc_nodup (myDocs ++ sharedDocs) []).1
